import Mathlib

/-
Verification development for the liquidity-bot repository.

The two source files are shallowly embedded below:
  * src/trade-bot.js   — price oracle client, balance inspector, swap
    pipeline (executeSwap) and trade cycle controller (performTradeCycle).
  * src/key-validator.js — the four-format private-key resolver
    (identifyKeyFormat), together with executable models of the base58,
    base64, hex and comma-separated-decimal codecs it relies on.

Modelling conventions:
  * JavaScript numbers are modelled as rationals (ℚ); `Math.floor` is ⌊·⌋.
  * Every network interaction is an explicit parameter recording the outcome
    the outside world produced for this invocation; `none` on the outermost
    layer models a thrown error / rejected promise, an inner `none` models a
    response whose expected field is missing or falsy.
  * Mutable module-level state of trade-bot.js is gathered in `EngineState`
    and threaded explicitly; the journal file `transactions.json` is modelled
    by the list of records an invocation appends.
  * The ed25519 validity check performed by `Keypair.fromSecretKey` is a
    cryptographic primitive and is abstracted as an explicit boolean
    predicate `valid` on the 64 secret bytes; everything else about the
    keypair (public key = bytes 32..63, secretKey = all 64 bytes) follows
    the library's documented representation.
-/

set_option maxHeartbeats 1600000

namespace LiquidityBot

/-! ## Constants and configuration (src/trade-bot.js lines 12–24) -/

def SOL_MINT : String := "So11111111111111111111111111111111111111112"

-- LAMPORTS_PER_SOL = 10^9
def LAMPORTS_PER_SOL : ℚ := 1000000000

-- Environment-derived configuration consumed by the trade engine.
structure Config where
  TRADE_AMOUNT_USD : ℚ
  MIN_SOL_BALANCE : ℚ
  TOKEN_MINT : String
deriving DecidableEq, Repr

/-! ## Engine state (src/trade-bot.js lines 26–36) -/

structure EngineState where
  isBuying : Bool
  totalTrades : ℕ
  successfulTrades : ℕ
  failedTrades : ℕ
  totalVolumeSOL : ℚ
  totalVolumeUSD : ℚ
  solPriceUSD : ℚ
  lastPurchasedTokenAmount : ℚ
  lastTradeAmountUSD : ℚ
deriving DecidableEq, Repr

/-! ## Price oracle client (src/trade-bot.js lines 96–133) -/

-- The nested `response.data.solana.usd` field of the CoinGecko reply;
-- `solanaUsd = none` collapses the cases where any level of the nesting is
-- missing (each makes the truthiness test at line 106 fail).
structure PriceResponse where
  solanaUsd : Option ℚ
deriving DecidableEq, Repr

-- getSolPriceUSD: `resp = none` models a thrown transport error; the falsy
-- test `response.data.solana.usd` rejects the value 0.  Returns the new
-- value of the module-level variable solPriceUSD, which is also the value
-- returned to the caller (every path returns the variable just assigned).
def getSolPriceUSD (resp : Option PriceResponse) (solPriceUSD : ℚ) : ℚ :=
  match resp with
  | some r =>
    match r.solanaUsd with
    | some v => if v = 0 then (if solPriceUSD = 0 then 150 else solPriceUSD) else v
    | none => if solPriceUSD = 0 then 150 else solPriceUSD
  | none => if solPriceUSD = 0 then 150 else solPriceUSD

-- The fetched price value that survives the truthiness test at line 106:
-- the request succeeded, the nested field is present and not falsy.
def acceptedUsd (resp : Option PriceResponse) : Option ℚ :=
  match resp with
  | some r =>
    match r.solanaUsd with
    | some v => if v = 0 then none else some v
    | none => none
  | none => none

-- calculateTradeAmountSOL: returns (new solPriceUSD, TRADE_AMOUNT_USD / price).
def calculateTradeAmountSOL (resp : Option PriceResponse) (solPriceUSD TRADE_AMOUNT_USD : ℚ) :
    ℚ × ℚ :=
  let p := getSolPriceUSD resp solPriceUSD
  (p, TRADE_AMOUNT_USD / p)

/-! ## Balance inspector (src/trade-bot.js lines 136–159) -/

-- getTokenBalance: outer `none` models `getParsedTokenAccountsByOwner`
-- throwing (caught, returns 0); `some none` models an empty account list
-- (returns 0); `some (some b)` is the parsed uiAmount of the first account.
def getTokenBalance (resp : Option (Option ℚ)) : ℚ :=
  match resp with
  | none => 0
  | some none => 0
  | some (some b) => b

/-! ## Swap pipeline (src/trade-bot.js lines 162–313) -/

-- Amount resolution, step 1 of the pipeline (lines 165–176).  Returns the
-- new solPriceUSD (a price fetch happens only when a SOL amount must be
-- computed from the USD size), the JS variable `amountSOL` (`none` models
-- it being left undefined on the token branch) and the integer amount
-- (`inputAmountStr`) sent to the quote service.
def resolveInputAmount (priceResp : Option PriceResponse)
    (solPriceUSD TRADE_AMOUNT_USD : ℚ)
    (inputAmount : Option ℚ) (isTokenAmount : Bool) : ℚ × Option ℚ × ℤ :=
  if isTokenAmount && inputAmount.isSome then
    (solPriceUSD, none, ⌊inputAmount.getD 0 * 1000000⌋)
  else
    match inputAmount with
    | some a => (solPriceUSD, some a, ⌊a * LAMPORTS_PER_SOL⌋)
    | none =>
      let pr := calculateTradeAmountSOL priceResp solPriceUSD TRADE_AMOUNT_USD
      (pr.1, some pr.2, ⌊pr.2 * LAMPORTS_PER_SOL⌋)

-- Outcomes of the pipeline's network interactions for one invocation.
structure SwapEnv where
  -- price fetch used by step 1 when it has to derive the SOL amount
  priceResp : Option PriceResponse
  -- GET /quote: outer none = request throws; inner none = `!data || !data.outAmount`
  -- (we fold a missing `data` object into a missing field; a present outAmount
  -- of 0 is falsy and is modelled by `some (some 0)`)
  quoteOutAmount : Option (Option ℚ)
  -- POST /swap: outer none = request throws; inner none = missing/falsy swapTransaction
  swapTxResp : Option (Option String)
  -- VersionedTransaction.deserialize + sign: false = throws
  signOk : Bool
  -- connection.sendTransaction: none = throws, some txid = returned id
  sendTxid : Option String
  -- confirmTransaction: false = the call throws or confirmation.value.err is set
  confirmOk : Bool
deriving DecidableEq, Repr

-- One line of transactions.json (lines 288–299).  The timestamp field is
-- not modelled.  `txid` is a String because the code only ever writes the
-- record after obtaining a transaction id.
structure TxRecord where
  type : String
  fromMint : String
  toMint : String
  inputAmount : ℚ
  inputType : String
  outputAmount : ℚ
  outputType : String
  amountUSD : Option ℚ
  txid : String
deriving DecidableEq, Repr

structure SwapResult where
  st : EngineState
  ok : Bool
  records : List TxRecord
deriving DecidableEq, Repr

-- The catch block of executeSwap (lines 304–312).
def failSwap (st : EngineState) : SwapResult :=
  ⟨{ st with failedTrades := st.failedTrades + 1, totalTrades := st.totalTrades + 1 },
   false, []⟩

-- executeSwap (lines 162–313).  State mutations made before a throw persist,
-- exactly as in JavaScript; the catch block then bumps the failure counters.
-- Note: on the token branch `amountSOL` stays undefined in JS; the model
-- carries it as `none` and `getD 0` stands for the (unreached from
-- performTradeCycle) arithmetic on undefined.
def executeSwap (env : SwapEnv) (cfg : Config) (st0 : EngineState)
    (fromMint toMint : String) (amountUSD : Option ℚ)
    (inputAmount : Option ℚ) (isTokenAmount : Bool) : SwapResult :=
  let res := resolveInputAmount env.priceResp st0.solPriceUSD cfg.TRADE_AMOUNT_USD
      inputAmount isTokenAmount
  let st1 := { st0 with solPriceUSD := res.1 }
  let amountSOL : Option ℚ := res.2.1
  match env.quoteOutAmount with
  | none => failSwap st1
  | some none => failSwap st1
  | some (some rawOut) =>
    if rawOut = 0 then failSwap st1
    else
      -- lines 206–207: output scaling by the output asset's decimals
      let outAmount := rawOut / 10 ^ (if toMint = SOL_MINT then 9 else 6)
      -- lines 211–219: BUY reference state is recorded right after the quote
      let st2 :=
        if st1.isBuying then
          { st1 with
            lastPurchasedTokenAmount := outAmount,
            lastTradeAmountUSD :=
              match amountUSD with
              | some u => if u = 0 then amountSOL.getD 0 * st1.solPriceUSD else u
              | none => amountSOL.getD 0 * st1.solPriceUSD }
        else st1
      match env.swapTxResp with
      | none => failSwap st2
      | some none => failSwap st2
      | some (some _) =>
        if env.signOk = false then failSwap st2
        else
          match env.sendTxid with
          | none => failSwap st2
          | some txid =>
            if env.confirmOk = false then failSwap st2
            else
              -- lines 267–301: success bookkeeping and the journal append
              let st3 :=
                { st2 with
                  successfulTrades := st2.successfulTrades + 1,
                  totalTrades := st2.totalTrades + 1,
                  totalVolumeSOL := st2.totalVolumeSOL +
                    (if isTokenAmount && inputAmount.isSome then outAmount
                     else amountSOL.getD 0),
                  totalVolumeUSD := st2.totalVolumeUSD +
                    (match amountUSD with
                     | some u => if u = 0 then 0 else u
                     | none => 0) }
              let txRecord : TxRecord :=
                { type := if st0.isBuying then "BUY" else "SELL",
                  fromMint := fromMint,
                  toMint := toMint,
                  inputAmount :=
                    if isTokenAmount && inputAmount.isSome then inputAmount.getD 0
                    else amountSOL.getD 0,
                  inputType := if isTokenAmount then "TOKEN" else "SOL",
                  outputAmount := outAmount,
                  outputType := if toMint = SOL_MINT then "SOL" else "TOKEN",
                  amountUSD := amountUSD,
                  txid := txid }
              ⟨st3, true, [txRecord]⟩

-- The quote outcome that survives the validity check at lines 201–203:
-- the request succeeded, the field is present and not falsy.
def quoteAccepted (env : SwapEnv) : Option ℚ :=
  match env.quoteOutAmount with
  | some (some q) => if q = 0 then none else some q
  | _ => none

/-! ## Trade cycle controller (src/trade-bot.js lines 316–439) -/

-- Outcomes of the network interactions performTradeCycle makes itself.
structure CycleEnv where
  -- connection.getBalance / LAMPORTS_PER_SOL; none = the RPC call throws
  -- (reaches the outer catch: the cycle returns false)
  solBalance : Option ℚ
  -- price fetch of calculateTradeAmountSOL (line 330)
  priceResp : Option PriceResponse
  -- getTokenBalance's RPC outcome (see getTokenBalance)
  tokenBalanceResp : Option (Option ℚ)
  -- single-token reference quote (lines 371–381): none = the request throws
  -- or its payload lacks the field (either way a throw reaches the inner
  -- catch); some v = the outAmount used at line 381
  rateQuote : Option ℚ
  -- environment for the executeSwap invocation this cycle performs (if any)
  swapEnv : SwapEnv
deriving DecidableEq, Repr

-- Arguments of one executeSwap invocation (the constant SLIPPAGE_BPS
-- argument is omitted: executeSwap only forwards it to the quote request,
-- whose outcome the environment already fixes).
structure SwapCall where
  fromMint : String
  toMint : String
  amountUSD : Option ℚ
  inputAmount : Option ℚ
  isTokenAmount : Bool
deriving DecidableEq, Repr

structure CycleResult where
  st : EngineState
  ok : Bool
  records : List TxRecord
  calls : List SwapCall
deriving DecidableEq, Repr

-- performTradeCycle (lines 316–439).
def performTradeCycle (env : CycleEnv) (cfg : Config) (st0 : EngineState) : CycleResult :=
  match env.solBalance with
  | none => ⟨st0, false, [], []⟩
  | some solBalance =>
    if solBalance < cfg.MIN_SOL_BALANCE then ⟨st0, false, [], []⟩
    else
      let pr := calculateTradeAmountSOL env.priceResp st0.solPriceUSD cfg.TRADE_AMOUNT_USD
      let st1 := { st0 with solPriceUSD := pr.1 }
      let tradeAmountSOL := pr.2
      -- lines 333–341: low-balance adjustment for buys (0.005 SOL fee reserve)
      let adj : ℚ × ℚ :=
        if st1.isBuying ∧ solBalance < tradeAmountSOL + 1 / 200 then
          ((solBalance - 1 / 200) * st1.solPriceUSD, solBalance - 1 / 200)
        else (cfg.TRADE_AMOUNT_USD, tradeAmountSOL)
      let adjustedTradeAmountUSD := adj.1
      let adjustedTradeAmountSOL := adj.2
      if st1.isBuying then
        let r := executeSwap env.swapEnv cfg st1 SOL_MINT cfg.TOKEN_MINT
            (some adjustedTradeAmountUSD) (some adjustedTradeAmountSOL) false
        ⟨{ r.st with isBuying := !r.st.isBuying }, true, r.records,
         [⟨SOL_MINT, cfg.TOKEN_MINT, some adjustedTradeAmountUSD,
           some adjustedTradeAmountSOL, false⟩]⟩
      else
        let tokenBalance := getTokenBalance env.tokenBalanceResp
        if tokenBalance ≤ 0 then
          -- lines 354–358: zero balance ⇒ switch to buy, report failure
          ⟨{ st1 with isBuying := true }, false, [], []⟩
        else
          -- line 361: reuse the recorded USD notional if one exists
          let sellAmountUSD :=
            if st1.lastTradeAmountUSD > 0 then st1.lastTradeAmountUSD
            else adjustedTradeAmountUSD
          match env.rateQuote with
          | some rateOut =>
            let solPerToken := rateOut / LAMPORTS_PER_SOL
            let tokenValueUSD := solPerToken * st1.solPriceUSD
            let tokensToSell := sellAmountUSD / tokenValueUSD
            if tokenBalance < tokensToSell then
              -- lines 393–397: cap at the available balance
              let r := executeSwap env.swapEnv cfg st1 cfg.TOKEN_MINT SOL_MINT
                  none (some tokenBalance) true
              ⟨{ r.st with isBuying := !r.st.isBuying }, true, r.records,
               [⟨cfg.TOKEN_MINT, SOL_MINT, none, some tokenBalance, true⟩]⟩
            else
              let r := executeSwap env.swapEnv cfg st1 cfg.TOKEN_MINT SOL_MINT
                  none (some tokensToSell) true
              ⟨{ r.st with isBuying := !r.st.isBuying }, true, r.records,
               [⟨cfg.TOKEN_MINT, SOL_MINT, none, some tokensToSell, true⟩]⟩
          | none =>
            if st1.lastPurchasedTokenAmount > 0 then
              -- lines 405–407: fall back to the last purchased amount, capped
              let amt := min st1.lastPurchasedTokenAmount tokenBalance
              let r := executeSwap env.swapEnv cfg st1 cfg.TOKEN_MINT SOL_MINT
                  none (some amt) true
              ⟨{ r.st with isBuying := !r.st.isBuying }, true, r.records,
               [⟨cfg.TOKEN_MINT, SOL_MINT, none, some amt, true⟩]⟩
            else
              -- lines 409–411: no reference amount ⇒ switch to buy
              ⟨{ st1 with isBuying := true }, false, [], []⟩

/-! ## Key resolver (src/key-validator.js)

The resolver works on character lists (JS strings).  Byte sequences are
lists of naturals below 256.  The four codecs the attempts use are modelled
executably:

  * bs58 decode/encode (the base-x big-number scheme: one leading zero byte
    per leading '1', remainder treated as a base-58 big-endian number);
  * Node's `Buffer.from(s, 'base64')`, which is lenient: characters outside
    the alphabet are skipped and '=' ends the data;
  * `Buffer.from(s, 'hex')` behind the `/^[0-9a-fA-F]+$/` guard;
  * `split(',')` + `parseInt(·, 10)` + `Uint8Array.from` (which reduces each
    entry mod 256).
-/

-- Little-endian digit expansion with explicit fuel (structural recursion,
-- so that concrete instances evaluate inside the kernel); `n` itself is
-- always enough fuel.
def digitsFuel (b : ℕ) : ℕ → ℕ → List ℕ
  | 0, _ => []
  | fuel + 1, n => if n = 0 then [] else n % b :: digitsFuel b fuel (n / b)

-- Big-endian digit list of `n` in base `b` and its evaluation.
def natDigitsBE (b n : ℕ) : List ℕ := (digitsFuel b n n).reverse

def digitsValBE (b : ℕ) (l : List ℕ) : ℕ := l.foldl (fun a d => a * b + d) 0

-- `mapM` over an option-valued character decoder, written out first-order.
def mapOption (f : Char → Option ℕ) : List Char → Option (List ℕ)
  | [] => some []
  | c :: rest =>
    match f c, mapOption f rest with
    | some d, some ds => some (d :: ds)
    | _, _ => none

-- JS String.prototype.trim, on character lists.
def jsTrim (l : List Char) : List Char :=
  ((l.dropWhile Char.isWhitespace).reverse.dropWhile Char.isWhitespace).reverse

/-! ### base58 (the bs58 package) -/

def B58ALPHABET : List Char :=
  "123456789ABCDEFGHJKLMNPQRSTUVWXYZabcdefghijkmnopqrstuvwxyz".toList

def b58Index (c : Char) : Option ℕ :=
  if c ∈ B58ALPHABET then some (B58ALPHABET.indexOf c) else none

def b58Char (d : ℕ) : Char := B58ALPHABET.getD d '1'

def base58EncodeBytes (bytes : List ℕ) : List Char :=
  List.replicate ((bytes.takeWhile (· = 0)).length) '1' ++
    (natDigitsBE 58 (digitsValBE 256 bytes)).map b58Char

-- bs58.decode: throws (none) on a character outside the alphabet.
def base58DecodeChars (l : List Char) : Option (List ℕ) :=
  (mapOption b58Index l).map fun ds =>
    List.replicate ((ds.takeWhile (· = 0)).length) 0 ++
      natDigitsBE 256 (digitsValBE 58 ds)

/-! ### base64 (Node Buffer) -/

def B64ALPHABET : List Char :=
  "ABCDEFGHIJKLMNOPQRSTUVWXYZabcdefghijklmnopqrstuvwxyz0123456789+/".toList

def b64Index (c : Char) : Option ℕ :=
  if c ∈ B64ALPHABET then some (B64ALPHABET.indexOf c) else none

def b64Char (d : ℕ) : Char := B64ALPHABET.getD d 'A'

-- Standard padded base64 rendering of a byte sequence.
def b64EncodeBytes : List ℕ → List Char
  | x :: y :: z :: rest =>
    b64Char (x / 4) :: b64Char (x % 4 * 16 + y / 16) ::
      b64Char (y % 16 * 4 + z / 64) :: b64Char (z % 64) :: b64EncodeBytes rest
  | [x, y] => [b64Char (x / 4), b64Char (x % 4 * 16 + y / 16), b64Char (y % 16 * 4), '=']
  | [x] => [b64Char (x / 4), b64Char (x % 4 * 16), '=', '=']
  | [] => []

def b64DecodeDigits : List ℕ → List ℕ
  | a :: b :: c :: d :: rest =>
    (a * 4 + b / 16) :: (b % 16 * 16 + c / 4) :: (c % 4 * 64 + d) :: b64DecodeDigits rest
  | [a, b, c] => [a * 4 + b / 16, b % 16 * 16 + c / 4]
  | [a, b] => [a * 4 + b / 16]
  | _ => []

-- Node's lenient decoder: data ends at '=', other non-alphabet characters
-- are skipped, and a dangling 6-bit remainder is dropped.
def b64DecodeChars (l : List Char) : List ℕ :=
  b64DecodeDigits ((l.takeWhile (· ≠ '=')).filterMap b64Index)

/-! ### hex -/

def HEXDIGITS : List Char := "0123456789abcdef".toList

def hexChar (d : ℕ) : Char := HEXDIGITS.getD d '0'

def isHexAscii (c : Char) : Prop :=
  c ∈ ("0123456789abcdefABCDEF".toList)

instance (c : Char) : Decidable (isHexAscii c) := by
  unfold isHexAscii; infer_instance

def hexVal (c : Char) : ℕ :=
  if '0' ≤ c ∧ c ≤ '9' then c.toNat - 48
  else if 'a' ≤ c ∧ c ≤ 'f' then c.toNat - 87
  else if 'A' ≤ c ∧ c ≤ 'F' then c.toNat - 55
  else 0

def hexEncodeBytes : List ℕ → List Char
  | [] => []
  | x :: rest => hexChar (x / 16) :: hexChar (x % 16) :: hexEncodeBytes rest

def hexDecodeChars : List Char → List ℕ
  | h :: l :: rest => (hexVal h * 16 + hexVal l) :: hexDecodeChars rest
  | _ => []

/-! ### comma-separated decimal -/

-- Decimal rendering of one byte value.
def natDecChars (n : ℕ) : List Char :=
  if n = 0 then ['0'] else (natDigitsBE 10 n).map (fun d => Char.ofNat (48 + d))

def arrayEncodeBytes : List ℕ → List Char
  | [] => []
  | [x] => natDecChars x
  | x :: y :: rest => natDecChars x ++ ',' :: arrayEncodeBytes (y :: rest)

-- JS String.prototype.split(',') on character lists: always returns at
-- least one (possibly empty) piece.
def splitComma : List Char → List (List Char)
  | [] => [[]]
  | c :: rest =>
    match splitComma rest with
    | [] => [[]]
    | g :: gs => if c = ',' then [] :: g :: gs else (c :: g) :: gs

-- parseInt(s, 10) restricted to the shapes arising here: the value of the
-- leading run of decimal digits, NaN (none) when there is none.  (Sign,
-- whitespace skipping and radix prefixes do not occur in these inputs.)
def parseIntJs (l : List Char) : Option ℕ :=
  let ds := l.takeWhile Char.isDigit
  if ds = [] then none
  else some (digitsValBE 10 (ds.map (fun c => c.toNat - 48)))

/-! ### identifyKeyFormat (src/key-validator.js lines 23–117) -/

-- Result object of identifyKeyFormat.  publicKey and privateKey are the
-- base58 renderings produced on success (`Keypair.publicKey.toString()` is
-- the base58 of bytes 32..63 of the secret; `bs58.encode(keypair.secretKey)`
-- is the base58 of all 64 bytes).
structure KeyResult where
  isValid : Bool
  format : String
  publicKey : Option (List Char)
  privateKey : Option (List Char)
  error : Option String
deriving DecidableEq, Repr

-- Keypair.fromSecretKey on a decoded byte sequence, behind the 64-byte
-- length guard each attempt performs.  The ed25519 consistency check the
-- library runs is the abstract predicate `valid`.
def keypairResult (valid : List ℕ → Bool) (fmt : String) (bytes : List ℕ) :
    Option KeyResult :=
  if bytes.length = 64 ∧ valid bytes = true then
    some ⟨true, fmt, some (base58EncodeBytes (bytes.drop 32)),
      some (base58EncodeBytes bytes), none⟩
  else none

def attemptBase58 (valid : List ℕ → Bool) (key : List Char) : Option KeyResult :=
  (base58DecodeChars key).bind (keypairResult valid "base58")

def attemptBase64 (valid : List ℕ → Bool) (key : List Char) : Option KeyResult :=
  keypairResult valid "base64" (b64DecodeChars key)

def attemptHex (valid : List ℕ → Bool) (key : List Char) : Option KeyResult :=
  -- the /^[0-9a-fA-F]+$/ test
  if key ≠ [] ∧ ∀ c ∈ key, isHexAscii c then
    keypairResult valid "hex" (hexDecodeChars key)
  else none

def attemptArray (valid : List ℕ → Bool) (key : List Char) : Option KeyResult :=
  let nums := (splitComma key).map (fun p => parseIntJs (jsTrim p))
  if nums.length = 64 ∧ ∀ n ∈ nums, n ≠ none then
    keypairResult valid "array" (nums.map (fun o => o.getD 0 % 256))
  else none

-- identifyKeyFormat: first succeeding strategy in the fixed order wins; if
-- every strategy fails, the invalid result with the diagnostic is returned.
def identifyKeyFormat (valid : List ℕ → Bool) (rawKey : List Char) : KeyResult :=
  let key := jsTrim rawKey
  (((attemptBase58 valid key).orElse fun _ =>
    (attemptBase64 valid key).orElse fun _ =>
      (attemptHex valid key).orElse fun _ =>
        attemptArray valid key).getD
    ⟨false, "unknown", none, none,
     some "Unable to decode private key in any known format"⟩)

/-! ## Concrete instances used by witnesses and counterexamples -/

def cfg0 : Config := ⟨6, 1 / 50, "TOK"⟩

-- Fresh engine state about to BUY (price already sampled at 150).
def stBuy : EngineState := ⟨true, 0, 0, 0, 0, 0, 150, 0, 0⟩

-- State about to SELL with no recorded purchase reference.
def stSell : EngineState := ⟨false, 3, 2, 1, 0, 0, 150, 0, 0⟩

-- State about to SELL holding a recorded purchase reference.
def stSellRef : EngineState := ⟨false, 3, 2, 1, 0, 0, 150, 2, 6⟩

def envQuoteFail : SwapEnv := ⟨none, none, none, true, none, true⟩

def envBuildFail : SwapEnv := ⟨none, some (some 5000000), none, true, none, true⟩

def envAllOk : SwapEnv :=
  ⟨none, some (some 5000000), some (some "tx"), true, some "TXID", true⟩

-- SELL cycle: healthy SOL balance, live price 150, five tokens held,
-- working single-token rate quote (0.001 SOL per token).
def cycSellRateOk : CycleEnv :=
  ⟨some 1, some ⟨some 150⟩, some (some 5), some 1000000, envQuoteFail⟩

-- Same but the single-token rate quote fails.
def cycSellRateFail : CycleEnv :=
  ⟨some 1, some ⟨some 150⟩, some (some 5), none, envQuoteFail⟩

-- Same but no tokens are held.
def cycSellZeroBal : CycleEnv :=
  ⟨some 1, some ⟨some 150⟩, some (some 0), some 1000000, envQuoteFail⟩

-- Same but the token balance read throws.
def cycSellBalErr : CycleEnv :=
  ⟨some 1, some ⟨some 150⟩, none, some 1000000, envQuoteFail⟩

-- A concrete 64-byte secret (bytes 0..63, exercising the leading-zero path
-- of base58) and a validity predicate accepting exactly it.
def secretBytes : List ℕ := List.range 64

def validOnSecret : List ℕ → Bool := fun l => decide (l = List.range 64)

/-! # Theorems -/

/-! ## C1 — journal appends (corrected) -/

/-- Claim C1 counterexample: an invocation of the swap pipeline whose quote
step fails completes (the attempt counter advances) yet appends no record at
all to the journal, contradicting the claim that every invocation appends
exactly one record, with transactionId = null on failure. -/
theorem executeSwap_failed_appends_nothing :
    (executeSwap envQuoteFail cfg0 stBuy SOL_MINT "TOK" (some 6) (some (1 / 25))
        false).records = [] ∧
    (executeSwap envQuoteFail cfg0 stBuy SOL_MINT "TOK" (some 6) (some (1 / 25))
        false).st.totalTrades = stBuy.totalTrades + 1 := by
  decide

/-- Claim C1 amended: a SwapAttemptRecord is appended exactly on successful
invocations of the swap pipeline — one record, carrying the (non-null)
transaction id returned by submission; a failed invocation appends no
record. -/
theorem executeSwap_journal (env : SwapEnv) (cfg : Config) (st : EngineState)
    (fromMint toMint : String) (amountUSD inputAmount : Option ℚ)
    (isTokenAmount : Bool) :
    (executeSwap env cfg st fromMint toMint amountUSD inputAmount
        isTokenAmount).records.map (fun txr => some txr.txid) =
      (if (executeSwap env cfg st fromMint toMint amountUSD inputAmount
          isTokenAmount).ok then [env.sendTxid] else []) := by
  obtain ⟨pr, qr, str, sg, snd, cf⟩ := env
  rcases qr with _ | ⟨_ | q⟩ <;> rcases str with _ | ⟨_ | s⟩ <;>
    rcases snd with _ | t <;> rcases sg <;> rcases cf <;>
    simp [executeSwap, failSwap] <;> split_ifs <;> simp_all

/-! ## C2 — atomicity of the BUY reference state (corrected) -/

/-- Claim C2 counterexample: a BUY invocation whose quote succeeds but whose
transaction-build step fails is a failed attempt, yet it has already
overwritten lastPurchasedTokenAmount (and lastTradeAmountUSD), contradicting
the claimed atomicity of the pipeline on failure. -/
theorem executeSwap_partial_state_on_failure :
    (executeSwap envBuildFail cfg0 stBuy SOL_MINT "TOK" (some 6)
        (some (1 / 25)) false).ok = false ∧
    stBuy.lastPurchasedTokenAmount = 0 ∧ stBuy.lastTradeAmountUSD = 0 ∧
    (executeSwap envBuildFail cfg0 stBuy SOL_MINT "TOK" (some 6)
        (some (1 / 25)) false).st.lastPurchasedTokenAmount = 5 ∧
    (executeSwap envBuildFail cfg0 stBuy SOL_MINT "TOK" (some 6)
        (some (1 / 25)) false).st.lastTradeAmountUSD = 6 ∧
    (5 : ℚ) ≠ 0 ∧ (6 : ℚ) ≠ 0 := by
  refine ⟨rfl, rfl, rfl, ?_, ?_, by norm_num, by norm_num⟩
  · simp [executeSwap, envBuildFail, cfg0, stBuy, resolveInputAmount, failSwap,
      SOL_MINT]
    norm_num
  · simp [executeSwap, envBuildFail, cfg0, stBuy, resolveInputAmount, failSwap,
      SOL_MINT]

/-- Claim C2 amended: the BUY reference state is unchanged whenever the quote
step fails or the invocation is a SELL; on a BUY it is overwritten as soon as
a quote is accepted — before build, sign, submit and confirm — so those later
steps failing does not restore it. -/
theorem executeSwap_buyRef (env : SwapEnv) (cfg : Config) (st : EngineState)
    (fromMint toMint : String) (amountUSD inputAmount : Option ℚ)
    (isTokenAmount : Bool) :
    (st.isBuying = false →
      (executeSwap env cfg st fromMint toMint amountUSD inputAmount
          isTokenAmount).st.lastPurchasedTokenAmount =
        st.lastPurchasedTokenAmount ∧
      (executeSwap env cfg st fromMint toMint amountUSD inputAmount
          isTokenAmount).st.lastTradeAmountUSD = st.lastTradeAmountUSD) ∧
    (quoteAccepted env = none →
      (executeSwap env cfg st fromMint toMint amountUSD inputAmount
          isTokenAmount).st.lastPurchasedTokenAmount =
        st.lastPurchasedTokenAmount ∧
      (executeSwap env cfg st fromMint toMint amountUSD inputAmount
          isTokenAmount).st.lastTradeAmountUSD = st.lastTradeAmountUSD) ∧
    (∀ q, quoteAccepted env = some q → st.isBuying = true →
      (executeSwap env cfg st fromMint toMint amountUSD inputAmount
          isTokenAmount).st.lastPurchasedTokenAmount =
        q / 10 ^ (if toMint = SOL_MINT then 9 else 6)) := by
  obtain ⟨pr, qr, str, sg, snd, cf⟩ := env
  rcases qr with _ | ⟨_ | q⟩ <;> rcases str with _ | ⟨_ | s⟩ <;>
    rcases snd with _ | t <;> rcases sg <;> rcases cf <;>
    simp [executeSwap, failSwap, quoteAccepted] <;> split_ifs <;> simp_all

theorem executeSwap_buyRef_witness :
    stBuy.isBuying = true ∧ quoteAccepted envBuildFail = some 5000000 ∧
    (executeSwap envBuildFail cfg0 stBuy SOL_MINT "TOK" (some 6)
        (some (1 / 25)) false).st.lastPurchasedTokenAmount =
      5000000 / 10 ^ (if "TOK" = SOL_MINT then 9 else 6) :=
  ⟨rfl, rfl,
    (executeSwap_buyRef envBuildFail cfg0 stBuy SOL_MINT "TOK" (some 6)
        (some (1 / 25)) false).2.2 5000000 rfl rfl⟩

/-! ## C3 — SELL with no purchase reference (corrected) -/

/-- Claim C3 counterexample: a SELL cycle with a positive token balance and
no recorded purchase reference is not skipped when the single-token rate
quote succeeds — the swap pipeline is invoked (sized from the default USD
trade amount), contradicting the claimed unconditional skip. -/
theorem performTradeCycle_noRef_invokes_pipeline :
    stSell.lastTradeAmountUSD = 0 ∧ stSell.lastPurchasedTokenAmount = 0 ∧
    getTokenBalance cycSellRateOk.tokenBalanceResp = 5 ∧ (0 : ℚ) < 5 ∧
    (performTradeCycle cycSellRateOk cfg0 stSell).calls =
      [⟨"TOK", SOL_MINT, none, some 5, true⟩] := by
  refine ⟨rfl, rfl, rfl, by norm_num, ?_⟩
  simp [performTradeCycle, cycSellRateOk, cfg0, stSell, envQuoteFail,
    getTokenBalance, calculateTradeAmountSOL, getSolPriceUSD, executeSwap,
    resolveInputAmount, failSwap, LAMPORTS_PER_SOL, SOL_MINT]
  norm_num

/-- Claim C3 amended: a SELL cycle with a positive token balance and no
recorded purchase reference is skipped (no pipeline invocation, failure
reported, next direction forced to BUY) only when the single-token rate
quote also fails; when the rate quote succeeds, the pipeline is invoked
once, sized from the default USD trade amount instead of a purchase
reference. -/
theorem performTradeCycle_noRef (env : CycleEnv) (cfg : Config)
    (st : EngineState) (b : ℚ) :
    st.isBuying = false → env.solBalance = some b →
    ¬ b < cfg.MIN_SOL_BALANCE →
    st.lastTradeAmountUSD ≤ 0 → st.lastPurchasedTokenAmount ≤ 0 →
    0 < getTokenBalance env.tokenBalanceResp →
    ((env.rateQuote = none →
        (performTradeCycle env cfg st).ok = false ∧
        (performTradeCycle env cfg st).calls = [] ∧
        (performTradeCycle env cfg st).st.isBuying = true) ∧
      (env.rateQuote ≠ none →
        (performTradeCycle env cfg st).calls.length = 1)) := by
  intro hbuy hbal hmin href1 href2 htb
  obtain ⟨sb, pr, tbr, rq, se⟩ := env
  simp only at hbal htb
  subst hbal
  have h1 : ¬ getTokenBalance tbr ≤ 0 := not_le.mpr htb
  have h2 : ¬ st.lastTradeAmountUSD > 0 := not_lt.mpr href1
  have h3 : ¬ st.lastPurchasedTokenAmount > 0 := not_lt.mpr href2
  constructor
  · intro hrq
    simp only at hrq
    subst hrq
    simp [performTradeCycle, hbuy, hmin, h1, h3]
  · intro hrq
    simp only at hrq
    rcases rq with _ | rv
    · exact absurd rfl hrq
    · simp [performTradeCycle, hbuy, hmin, h1, h2]
      split_ifs <;> simp

theorem performTradeCycle_noRef_witness :
    (performTradeCycle cycSellRateOk cfg0 stSell).calls.length = 1 :=
  (performTradeCycle_noRef cycSellRateOk cfg0 stSell 1 rfl rfl
    (by norm_num [cfg0]) (by norm_num [stSell]) (by norm_num [stSell])
    (by norm_num [getTokenBalance, cycSellRateOk])).2 (by simp [cycSellRateOk])

/-! ## C5 — price oracle fallback (corrected) -/

/-- Claim C5 counterexample: a successful fetch whose reported value is
negative is returned as-is (the truthiness check only rejects 0), so
getSolPriceUSD does not return a strictly positive price on every path. -/
theorem getSolPriceUSD_negative_passthrough :
    getSolPriceUSD (some ⟨some (-5)⟩) 0 = -5 ∧
    ¬ 0 < getSolPriceUSD (some ⟨some (-5)⟩) 0 := by
  decide

/-- Claim C5 amended: getSolPriceUSD is total (never propagates a fetch
error); on a failed or rejected fetch it returns the fixed default 150 when
no prior sample exists and the prior sample unchanged otherwise; an accepted
fetched value is returned as-is, so the result is strictly positive provided
the prior state is nonnegative and any accepted fetched value is positive
(a fetched zero is rejected as falsy and falls back). -/
theorem getSolPriceUSD_fallback (resp : Option PriceResponse) (p : ℚ) :
    (acceptedUsd resp = none →
      getSolPriceUSD resp p = (if p = 0 then 150 else p)) ∧
    (∀ v, acceptedUsd resp = some v → getSolPriceUSD resp p = v) ∧
    (0 ≤ p → (∀ v, acceptedUsd resp = some v → 0 < v) →
      0 < getSolPriceUSD resp p) := by
  have hfb : ∀ hp : (0 : ℚ) ≤ p, 0 < (if p = 0 then (150 : ℚ) else p) := by
    intro hp
    split_ifs with h
    · norm_num
    · exact lt_of_le_of_ne hp (Ne.symm h)
  rcases resp with _ | ⟨_ | v⟩
  · exact ⟨fun _ => rfl, fun v hv => by simp [acceptedUsd] at hv,
      fun hp _ => hfb hp⟩
  · exact ⟨fun _ => rfl, fun v hv => by simp [acceptedUsd] at hv,
      fun hp _ => hfb hp⟩
  · by_cases hv : v = 0
    · subst hv
      exact ⟨fun _ => by simp [getSolPriceUSD],
        fun w hw => by simp [acceptedUsd] at hw,
        fun hp _ => by simpa [getSolPriceUSD] using hfb hp⟩
    · refine ⟨fun h => ?_, fun w hw => ?_, fun hp hpos => ?_⟩
      · simp [acceptedUsd, hv] at h
      · simp only [acceptedUsd, if_neg hv, Option.some.injEq] at hw
        subst hw
        simp [getSolPriceUSD, hv]
      · have := hpos v (by simp [acceptedUsd, hv])
        simpa [getSolPriceUSD, hv] using this

theorem getSolPriceUSD_fallback_witness :
    getSolPriceUSD (some ⟨some 150⟩) 0 = 150 :=
  (getSolPriceUSD_fallback (some ⟨some 150⟩) 0).2.1 150 (by decide)

/-! ## C6 — amount resolution truncates (confirmed) -/

/-- Claim C6: amount resolution truncates and never rounds up — the integer
amount handed to the quote service is at most the input amount times the
unit scale, 10^6 token units on the SELL (token) leg and 10^9 lamports on
the BUY (SOL) leg. -/
theorem resolveInputAmount_truncates (priceResp : Option PriceResponse)
    (p T a : ℚ) :
    ((resolveInputAmount priceResp p T (some a) true).2.2 : ℚ) ≤ a * 1000000 ∧
    ((resolveInputAmount priceResp p T (some a) false).2.2 : ℚ) ≤
      a * LAMPORTS_PER_SOL := by
  constructor <;> simp [resolveInputAmount] <;> exact Int.floor_le _

/-! ## C7 — SELL sizing never exceeds the balance (confirmed) -/

/-- Claim C7: in every SELL cycle, whatever the balance, recorded notional
and rate-quote outcome, the token quantity handed to the swap pipeline is at
most the current token balance (the rate-matching path caps at the balance;
the fallback path sells min(lastPurchasedTokenAmount, balance)). -/
theorem performTradeCycle_sell_le_balance (env : CycleEnv) (cfg : Config)
    (st : EngineState) (h : st.isBuying = false) :
    ∀ call ∈ (performTradeCycle env cfg st).calls,
      ∃ a, call.inputAmount = some a ∧
        a ≤ getTokenBalance env.tokenBalanceResp := by
  obtain ⟨sb, pr, tbr, rq, se⟩ := env
  rcases sb with _ | bal <;> rcases rq with _ | rv <;>
    simp_all [performTradeCycle] <;> split_ifs <;>
    simp_all [le_of_not_lt, min_le_right, le_refl]

theorem performTradeCycle_sell_le_balance_witness :
    (5 : ℚ) ≤ getTokenBalance cycSellRateOk.tokenBalanceResp := by
  have hcalls : (performTradeCycle cycSellRateOk cfg0 stSell).calls =
      [⟨"TOK", SOL_MINT, none, some 5, true⟩] := by
    simp [performTradeCycle, cycSellRateOk, cfg0, stSell, envQuoteFail,
      getTokenBalance, calculateTradeAmountSOL, getSolPriceUSD, executeSwap,
      resolveInputAmount, failSwap, LAMPORTS_PER_SOL, SOL_MINT]
    norm_num
  obtain ⟨a, ha, hle⟩ := performTradeCycle_sell_le_balance cycSellRateOk cfg0
    stSell rfl ⟨"TOK", SOL_MINT, none, some 5, true⟩
    (by rw [hcalls]; exact List.mem_singleton_self _)
  simp only [Option.some.injEq] at ha
  rw [ha]
  exact hle

/-! ## C8 — SELL with zero balance skips (confirmed) -/

-- Shared helper: the lines 354–358 skip path, stated for any SELL cycle
-- whose balance read yields 0.
theorem sell_skip_of_zero_balance (env : CycleEnv) (cfg : Config)
    (st : EngineState) (b : ℚ)
    (hbuy : st.isBuying = false) (hbal : env.solBalance = some b)
    (hmin : ¬ b < cfg.MIN_SOL_BALANCE)
    (htb : getTokenBalance env.tokenBalanceResp = 0) :
    (performTradeCycle env cfg st).ok = false ∧
    (performTradeCycle env cfg st).calls = [] ∧
    (performTradeCycle env cfg st).records = [] ∧
    (performTradeCycle env cfg st).st.isBuying = true ∧
    (performTradeCycle env cfg st).st.totalTrades = st.totalTrades := by
  obtain ⟨sb, pr, tbr, rq, se⟩ := env
  simp only at hbal htb
  subst hbal
  simp only [performTradeCycle]
  rw [if_neg hmin]
  simp [hbuy, htb]

/-- Claim C8: a SELL cycle that reaches the balance read and finds a zero
token balance (including an absent token account) is skipped — no pipeline
invocation, no record, failure reported to the scheduler — and the next
direction is forced to BUY. -/
theorem performTradeCycle_zeroBalance_skips (env : CycleEnv) (cfg : Config)
    (st : EngineState) (b : ℚ) :
    st.isBuying = false → env.solBalance = some b →
    ¬ b < cfg.MIN_SOL_BALANCE →
    getTokenBalance env.tokenBalanceResp = 0 →
    (performTradeCycle env cfg st).ok = false ∧
    (performTradeCycle env cfg st).calls = [] ∧
    (performTradeCycle env cfg st).records = [] ∧
    (performTradeCycle env cfg st).st.isBuying = true ∧
    (performTradeCycle env cfg st).st.totalTrades = st.totalTrades :=
  fun hbuy hbal hmin htb => sell_skip_of_zero_balance env cfg st b hbuy hbal hmin htb

theorem performTradeCycle_zeroBalance_skips_witness :
    (performTradeCycle cycSellZeroBal cfg0 stSellRef).ok = false ∧
    (performTradeCycle cycSellZeroBal cfg0 stSellRef).calls = [] ∧
    (performTradeCycle cycSellZeroBal cfg0 stSellRef).records = [] ∧
    (performTradeCycle cycSellZeroBal cfg0 stSellRef).st.isBuying = true ∧
    (performTradeCycle cycSellZeroBal cfg0 stSellRef).st.totalTrades =
      stSellRef.totalTrades :=
  performTradeCycle_zeroBalance_skips cycSellZeroBal cfg0 stSellRef 1
    rfl rfl (by norm_num [cfg0]) (by norm_num [getTokenBalance, cycSellZeroBal])

/-! ## C9 — counters advance exactly once per invocation (confirmed) -/

/-- Claim C9: every invocation of the swap pipeline increments the
total-attempts counter by exactly one and exactly one of the success/failure
counters by exactly one, whatever step failed; hence the invariant
totalTrades = successfulTrades + failedTrades is preserved. -/
theorem executeSwap_counters (env : SwapEnv) (cfg : Config) (st : EngineState)
    (fromMint toMint : String) (amountUSD inputAmount : Option ℚ)
    (isTokenAmount : Bool) :
    (executeSwap env cfg st fromMint toMint amountUSD inputAmount
        isTokenAmount).st.totalTrades = st.totalTrades + 1 ∧
    (executeSwap env cfg st fromMint toMint amountUSD inputAmount
        isTokenAmount).st.successfulTrades = st.successfulTrades +
      (if (executeSwap env cfg st fromMint toMint amountUSD inputAmount
          isTokenAmount).ok then 1 else 0) ∧
    (executeSwap env cfg st fromMint toMint amountUSD inputAmount
        isTokenAmount).st.failedTrades = st.failedTrades +
      (if (executeSwap env cfg st fromMint toMint amountUSD inputAmount
          isTokenAmount).ok then 0 else 1) ∧
    (st.totalTrades = st.successfulTrades + st.failedTrades →
      (executeSwap env cfg st fromMint toMint amountUSD inputAmount
          isTokenAmount).st.totalTrades =
        (executeSwap env cfg st fromMint toMint amountUSD inputAmount
            isTokenAmount).st.successfulTrades +
          (executeSwap env cfg st fromMint toMint amountUSD inputAmount
              isTokenAmount).st.failedTrades) := by
  obtain ⟨pr, qr, str, sg, snd, cf⟩ := env
  rcases qr with _ | ⟨_ | q⟩ <;> rcases str with _ | ⟨_ | s⟩ <;>
    rcases snd with _ | t <;> rcases sg <;> rcases cf <;>
    simp [executeSwap, failSwap] <;> (try split_ifs) <;> (try simp_all) <;>
    intros <;> omega

theorem executeSwap_counters_witness :
    (executeSwap envQuoteFail cfg0 stBuy SOL_MINT "TOK" (some 6)
        (some (1 / 25)) false).st.totalTrades = stBuy.totalTrades + 1 ∧
    (executeSwap envQuoteFail cfg0 stBuy SOL_MINT "TOK" (some 6)
        (some (1 / 25)) false).st.successfulTrades = stBuy.successfulTrades +
      (if (executeSwap envQuoteFail cfg0 stBuy SOL_MINT "TOK" (some 6)
          (some (1 / 25)) false).ok then 1 else 0) ∧
    (executeSwap envQuoteFail cfg0 stBuy SOL_MINT "TOK" (some 6)
        (some (1 / 25)) false).st.failedTrades = stBuy.failedTrades +
      (if (executeSwap envQuoteFail cfg0 stBuy SOL_MINT "TOK" (some 6)
          (some (1 / 25)) false).ok then 0 else 1) ∧
    ((executeSwap envQuoteFail cfg0 stBuy SOL_MINT "TOK" (some 6)
        (some (1 / 25)) false).st.totalTrades =
      (executeSwap envQuoteFail cfg0 stBuy SOL_MINT "TOK" (some 6)
          (some (1 / 25)) false).st.successfulTrades +
        (executeSwap envQuoteFail cfg0 stBuy SOL_MINT "TOK" (some 6)
            (some (1 / 25)) false).st.failedTrades) := by
  have h := executeSwap_counters envQuoteFail cfg0 stBuy SOL_MINT "TOK"
    (some 6) (some (1 / 25)) false
  exact ⟨h.1, h.2.1, h.2.2.1, h.2.2.2 (by decide)⟩

/-! ## C10 — balance-read errors behave as zero balance (confirmed) -/

/-- Claim C10: getTokenBalance is total and returns 0 both when the token
account is absent and when the balance query throws; consequently a trade
cycle whose balance read errors is indistinguishable from one that read a
zero balance, and a SELL cycle in that situation is skipped with the next
direction forced to BUY. -/
theorem getTokenBalance_error_as_zero :
    getTokenBalance none = 0 ∧ getTokenBalance (some none) = 0 ∧
    (∀ env : CycleEnv, ∀ cfg st,
      performTradeCycle { env with tokenBalanceResp := none } cfg st =
        performTradeCycle { env with tokenBalanceResp := some (some 0) } cfg st) ∧
    (∀ env : CycleEnv, ∀ cfg st, ∀ b : ℚ,
      st.isBuying = false → env.solBalance = some b →
      ¬ b < cfg.MIN_SOL_BALANCE → env.tokenBalanceResp = none →
      (performTradeCycle env cfg st).ok = false ∧
      (performTradeCycle env cfg st).calls = [] ∧
      (performTradeCycle env cfg st).st.isBuying = true) := by
  refine ⟨rfl, rfl, ?_, ?_⟩
  · intro env cfg st
    rfl
  · intro env cfg st b hbuy hbal hmin htb
    have h := sell_skip_of_zero_balance env cfg st b hbuy hbal hmin
      (by rw [htb]; rfl)
    exact ⟨h.1, h.2.1, h.2.2.2.1⟩

theorem getTokenBalance_error_as_zero_witness :
    (performTradeCycle cycSellBalErr cfg0 stSellRef).ok = false ∧
    (performTradeCycle cycSellBalErr cfg0 stSellRef).calls = [] ∧
    (performTradeCycle cycSellBalErr cfg0 stSellRef).st.isBuying = true :=
  getTokenBalance_error_as_zero.2.2.2 cycSellBalErr cfg0 stSellRef 1
    rfl rfl (by norm_num [cfg0]) rfl

/-! ## C4 — support lemmas: positional digit systems -/

lemma digitsValBE_aux (b : ℕ) (l : List ℕ) (a : ℕ) :
    l.foldl (fun x d => x * b + d) a = a * b ^ l.length + Nat.ofDigits b l.reverse := by
  induction l generalizing a with
  | nil => simp
  | cons d t ih =>
    simp only [List.foldl_cons, List.reverse_cons, ih, Nat.ofDigits_append,
      List.length_reverse, List.length_cons, Nat.ofDigits_singleton]
    ring

lemma digitsValBE_eq_ofDigits (b : ℕ) (l : List ℕ) :
    digitsValBE b l = Nat.ofDigits b l.reverse := by
  simpa [digitsValBE] using digitsValBE_aux b l 0

lemma digitsFuel_eq (b : ℕ) (hb : 1 < b) :
    ∀ fuel n : ℕ, n ≤ fuel → digitsFuel b fuel n = Nat.digits b n := by
  intro fuel
  induction fuel with
  | zero =>
    intro n hn
    have h0 : n = 0 := by omega
    subst h0
    simp [digitsFuel]
  | succ fuel ih =>
    intro n hn
    by_cases h0 : n = 0
    · subst h0
      simp [digitsFuel]
    · have hpos : 0 < n := Nat.pos_of_ne_zero h0
      have hdiv : n / b ≤ fuel := by
        have := Nat.div_lt_self hpos hb
        omega
      rw [digitsFuel, if_neg h0, ih (n / b) hdiv, Nat.digits_def' hb hpos]

lemma natDigitsBE_eq (b : ℕ) (hb : 1 < b) (n : ℕ) :
    natDigitsBE b n = (Nat.digits b n).reverse := by
  rw [natDigitsBE, digitsFuel_eq b hb n n le_rfl]

lemma digitsValBE_natDigitsBE (b : ℕ) (hb : 1 < b) (n : ℕ) :
    digitsValBE b (natDigitsBE b n) = n := by
  rw [digitsValBE_eq_ofDigits, natDigitsBE_eq b hb, List.reverse_reverse,
    Nat.ofDigits_digits]

lemma natDigitsBE_digitsValBE (b : ℕ) (hb : 1 < b) (l : List ℕ)
    (hlt : ∀ x ∈ l, x < b) (hhead : l.head? ≠ some 0) :
    natDigitsBE b (digitsValBE b l) = l := by
  rw [digitsValBE_eq_ofDigits, natDigitsBE_eq b hb, Nat.digits_ofDigits b hb
    l.reverse (fun x hx => hlt x (List.mem_reverse.mp hx)),
    List.reverse_reverse]
  intro h
  intro h0
  apply hhead
  rw [← List.getLast?_reverse, List.getLast?_eq_getLast _ h, h0]

lemma digitsValBE_replicate_zero (b k : ℕ) (l : List ℕ) :
    digitsValBE b (List.replicate k 0 ++ l) = digitsValBE b l := by
  induction k with
  | zero => simp
  | succ k ih =>
    simpa [digitsValBE, List.replicate_succ, List.cons_append] using ih

lemma foldl_base_lower_bound (b : ℕ) (l : List ℕ) (a : ℕ) :
    a * b ^ l.length ≤ l.foldl (fun x d => x * b + d) a := by
  rw [digitsValBE_aux]
  exact Nat.le_add_right _ _

lemma natDigitsBE_zero (b : ℕ) : natDigitsBE b 0 = [] := by
  simp [natDigitsBE, digitsFuel]

lemma mem_natDigitsBE_lt {b : ℕ} (hb : 1 < b) (n : ℕ) :
    ∀ d ∈ natDigitsBE b n, d < b := by
  intro d hd
  rw [natDigitsBE_eq b hb] at hd
  exact Nat.digits_lt_base hb (List.mem_reverse.mp hd)

lemma natDigitsBE_head?_ne_zero (b : ℕ) (hb : 1 < b) {n : ℕ} (hn : n ≠ 0) :
    (natDigitsBE b n).head? ≠ some 0 := by
  have hne : Nat.digits b n ≠ [] := Nat.digits_ne_nil_iff_ne_zero.mpr hn
  rw [natDigitsBE_eq b hb, List.head?_reverse, List.getLast?_eq_getLast _ hne]
  simp [Nat.getLast_digit_ne_zero b hn]

/-! ## C4 — support lemmas: list utilities -/

lemma getD_mem_or {α : Type} (l : List α) (n : ℕ) (d : α) :
    l.getD n d ∈ l ∨ l.getD n d = d := by
  induction l generalizing n with
  | nil => right; simp
  | cons c t ih =>
    cases n with
    | zero => left; simp
    | succ n =>
      rw [List.getD_cons_succ]
      rcases ih n with h | h
      · exact Or.inl (List.mem_cons_of_mem _ h)
      · exact Or.inr h

lemma dropWhile_eq_self_of {α : Type} (p : α → Bool) (l : List α)
    (h : ∀ c ∈ l, p c = false) : l.dropWhile p = l := by
  cases l with
  | nil => rfl
  | cons c t => simp [List.dropWhile_cons, h c (List.mem_cons_self c t)]

lemma jsTrim_eq_self (l : List Char) (h : ∀ c ∈ l, c.isWhitespace = false) :
    jsTrim l = l := by
  unfold jsTrim
  rw [dropWhile_eq_self_of _ l h,
    dropWhile_eq_self_of _ l.reverse (fun c hc => h c (List.mem_reverse.mp hc)),
    List.reverse_reverse]

lemma dropWhile_head?_false {α : Type} (p : α → Bool) (l : List α) (y : α)
    (h : (l.dropWhile p).head? = some y) : p y = false := by
  induction l with
  | nil => simp at h
  | cons c t ih =>
    by_cases hc : p c
    · rw [List.dropWhile_cons_of_pos hc] at h
      exact ih h
    · rw [List.dropWhile_cons_of_neg hc] at h
      simp only [List.head?_cons, Option.some.injEq] at h
      subst h
      exact Bool.eq_false_iff.mpr hc

lemma takeWhile_zeros_append (k : ℕ) (l : List ℕ) (hd : l.head? ≠ some 0) :
    ((List.replicate k 0 ++ l).takeWhile (· = 0)) = List.replicate k 0 := by
  induction k with
  | zero =>
    cases l with
    | nil => rfl
    | cons d t =>
      have hdz : d ≠ 0 := by
        intro h0
        exact hd (by simp [h0])
      simp [List.takeWhile_cons, hdz]
  | succ k ih =>
    simp [List.replicate_succ, List.cons_append, List.takeWhile_cons, ih]

lemma takeWhile_zeros_eq_replicate (l : List ℕ) :
    l.takeWhile (· = 0) =
      List.replicate (l.takeWhile (· = 0)).length 0 := by
  apply List.eq_replicate_of_mem
  intro x hx
  simpa using List.mem_takeWhile_imp hx

lemma filterMap_length_of_forall_isSome {α β : Type} (f : α → Option β)
    (l : List α) (h : ∀ c ∈ l, (f c).isSome) :
    (l.filterMap f).length = l.length := by
  induction l with
  | nil => rfl
  | cons c t ih =>
    rcases Option.isSome_iff_exists.mp (h c (List.mem_cons_self c t)) with ⟨d, hd⟩
    rw [List.filterMap_cons_some hd]
    simpa using ih (fun x hx => h x (List.mem_cons_of_mem _ hx))

/-! ## C4 — support lemmas: mapOption -/

lemma mapOption_map (f : Char → Option ℕ) (g : ℕ → Char) (l : List ℕ)
    (h : ∀ x ∈ l, f (g x) = some x) : mapOption f (l.map g) = some l := by
  induction l with
  | nil => rfl
  | cons d t ih =>
    simp only [List.map_cons, mapOption, h d (List.mem_cons_self d t),
      ih (fun x hx => h x (List.mem_cons_of_mem _ hx))]

lemma mapOption_eq_none (f : Char → Option ℕ) (l : List Char) (c : Char)
    (hc : c ∈ l) (hf : f c = none) : mapOption f l = none := by
  induction l with
  | nil => cases hc
  | cons d t ih =>
    rcases List.mem_cons.mp hc with h | h
    · subst h
      simp [mapOption, hf]
    · cases hfd : f d <;> simp [mapOption, hfd, ih h]

lemma mapOption_length (f : Char → Option ℕ) (l : List Char) (ds : List ℕ)
    (h : mapOption f l = some ds) : ds.length = l.length := by
  induction l generalizing ds with
  | nil =>
    simp only [mapOption, Option.some.injEq] at h
    subst h
    rfl
  | cons c t ih =>
    simp only [mapOption] at h
    cases hfc : f c with
    | none => rw [hfc] at h; cases h
    | some d =>
      rw [hfc] at h
      cases hmt : mapOption f t with
      | none => rw [hmt] at h; cases h
      | some ds' =>
        rw [hmt] at h
        simp only [Option.some.injEq] at h
        subst h
        simpa using ih ds' hmt

lemma mapOption_forall (P : ℕ → Prop) (f : Char → Option ℕ)
    (hf : ∀ c d, f c = some d → P d) :
    ∀ (l : List Char) (ds : List ℕ), mapOption f l = some ds → ∀ d ∈ ds, P d := by
  intro l
  induction l with
  | nil =>
    intro ds h
    simp only [mapOption, Option.some.injEq] at h
    subst h
    simp
  | cons c t ih =>
    intro ds h
    simp only [mapOption] at h
    cases hfc : f c with
    | none => rw [hfc] at h; cases h
    | some d =>
      rw [hfc] at h
      cases hmt : mapOption f t with
      | none => rw [hmt] at h; cases h
      | some ds' =>
        rw [hmt] at h
        simp only [Option.some.injEq] at h
        subst h
        intro x hx
        rcases List.mem_cons.mp hx with h | h
        · subst h; exact hf c x hfc
        · exact ih ds' hmt x h

/-! ## C4 — support lemmas: base58 -/

lemma b58Index_of_b58Char : ∀ d : ℕ, d < 58 → b58Index (b58Char d) = some d := by
  decide

lemma b58Char_mem (d : ℕ) : b58Char d ∈ B58ALPHABET := by
  rcases getD_mem_or B58ALPHABET d '1' with h | h
  · exact h
  · rw [b58Char, h]; decide

lemma b58_alpha_not_ws : ∀ c ∈ B58ALPHABET, c.isWhitespace = false := by decide

lemma b58Index_lt {c : Char} {d : ℕ} (h : b58Index c = some d) : d < 58 := by
  by_cases hc : c ∈ B58ALPHABET
  · rw [b58Index, if_pos hc] at h
    simp only [Option.some.injEq] at h
    subst h
    have := List.indexOf_lt_length.mpr hc
    simpa using this
  · rw [b58Index, if_neg hc] at h
    cases h

-- bs58 decode is a left inverse of bs58 encode on byte sequences.
lemma base58_decode_encode (bytes : List ℕ) (h : ∀ x ∈ bytes, x < 256) :
    base58DecodeChars (base58EncodeBytes bytes) = some bytes := by
  have h58 : (1 : ℕ) < 58 := by norm_num
  have h256 : (1 : ℕ) < 256 := by norm_num
  have hv58 : ∀ x ∈ natDigitsBE 58 (digitsValBE 256 bytes), x < 58 :=
    mem_natDigitsBE_lt h58 _
  have henc : base58EncodeBytes bytes =
      (List.replicate ((bytes.takeWhile (· = 0)).length) 0 ++
        natDigitsBE 58 (digitsValBE 256 bytes)).map b58Char := by
    rw [base58EncodeBytes, List.map_append, List.map_replicate]
    rfl
  have hmap : mapOption b58Index
      ((List.replicate ((bytes.takeWhile (· = 0)).length) 0 ++
        natDigitsBE 58 (digitsValBE 256 bytes)).map b58Char) =
      some (List.replicate ((bytes.takeWhile (· = 0)).length) 0 ++
        natDigitsBE 58 (digitsValBE 256 bytes)) := by
    apply mapOption_map
    intro x hx
    apply b58Index_of_b58Char
    rcases List.mem_append.mp hx with hx | hx
    · have := List.eq_of_mem_replicate hx
      omega
    · exact hv58 x hx
  have hhead : (natDigitsBE 58 (digitsValBE 256 bytes)).head? ≠ some 0 := by
    by_cases hv0 : digitsValBE 256 bytes = 0
    · rw [hv0, natDigitsBE_zero]
      simp
    · exact natDigitsBE_head?_ne_zero 58 (by norm_num) hv0
  rw [base58DecodeChars, henc, hmap, Option.map_some']
  rw [takeWhile_zeros_append _ _ hhead]
  rw [digitsValBE_replicate_zero, digitsValBE_natDigitsBE 58 (by norm_num)]
  -- the value determines the bytes after the leading zeros
  have hsplit : bytes.takeWhile (· = 0) ++ bytes.dropWhile (· = 0) = bytes :=
    List.takeWhile_append_dropWhile _ bytes
  have hval : digitsValBE 256 bytes = digitsValBE 256 (bytes.dropWhile (· = 0)) := by
    conv_lhs => rw [← hsplit]
    rw [takeWhile_zeros_eq_replicate, digitsValBE_replicate_zero]
  have htail : natDigitsBE 256 (digitsValBE 256 bytes) = bytes.dropWhile (· = 0) := by
    rw [hval]
    apply natDigitsBE_digitsValBE 256 h256
    · intro x hx
      exact h x ((List.dropWhile_sublist _).subset hx)
    · intro h0
      have := dropWhile_head?_false _ _ _ h0
      simp at this
  rw [htail, List.length_replicate]
  rw [← takeWhile_zeros_eq_replicate, hsplit]

-- A 128-character base58 string never decodes to fewer than 65 bytes, so no
-- 128-character hex rendering of a key can be claimed by the base58 attempt.
lemma base58_decode_length_of_128 (l : List Char) (hl : l.length = 128)
    (bs : List ℕ) (hbs : base58DecodeChars l = some bs) : 65 ≤ bs.length := by
  unfold base58DecodeChars at hbs
  cases hm : mapOption b58Index l with
  | none => rw [hm] at hbs; cases hbs
  | some ds =>
    rw [hm, Option.map_some'] at hbs
    have hlen : ds.length = 128 := (mapOption_length _ _ _ hm).trans hl
    have hsplit := List.takeWhile_append_dropWhile (fun x => decide (x = 0)) ds
    injection hbs with hbs
    have hbslen : bs.length = (ds.takeWhile (· = 0)).length +
        (Nat.digits 256 (digitsValBE 58 ds)).length := by
      rw [← hbs]
      simp [natDigitsBE_eq 256 (by norm_num)]
    cases hdrop : ds.dropWhile (· = 0) with
    | nil =>
      have htk : ds.takeWhile (· = 0) = ds := by
        rw [hdrop, List.append_nil] at hsplit
        exact hsplit
      rw [htk, hlen] at hbslen
      omega
    | cons d t =>
      have hd0 : d ≠ 0 := by
        have := dropWhile_head?_false (fun x => decide (x = 0)) ds d
          (by rw [hdrop]; rfl)
        simpa using this
      have hsplit2 : ds.takeWhile (· = 0) ++ d :: t = ds := by
        rw [← hdrop]
        exact hsplit
      have hlen2 : (ds.takeWhile (· = 0)).length + (d :: t).length = 128 := by
        rw [← List.length_append, hsplit2, hlen]
      have hvge : 58 ^ (127 - (ds.takeWhile (· = 0)).length) ≤
          digitsValBE 58 ds := by
        have hval : digitsValBE 58 ds = digitsValBE 58 (d :: t) := by
          conv_lhs => rw [← hsplit, hdrop, takeWhile_zeros_eq_replicate,
            digitsValBE_replicate_zero]
        have hfold : d * 58 ^ t.length ≤ digitsValBE 58 (d :: t) := by
          have := foldl_base_lower_bound 58 t d
          simpa [digitsValBE] using this
        have htlen : t.length = 127 - (ds.takeWhile (· = 0)).length := by
          simp only [List.length_cons] at hlen2
          omega
        calc 58 ^ (127 - (ds.takeWhile (· = 0)).length)
            = 1 * 58 ^ t.length := by rw [htlen, one_mul]
          _ ≤ d * 58 ^ t.length := Nat.mul_le_mul_right _ (by omega)
          _ ≤ digitsValBE 58 (d :: t) := hfold
          _ = digitsValBE 58 ds := hval.symm
      by_cases hk65 : 65 ≤ (ds.takeWhile (· = 0)).length
      · omega
      · have hk64 : (ds.takeWhile (· = 0)).length ≤ 64 := by omega
        have hchain : (256 : ℕ) ^ (64 - (ds.takeWhile (· = 0)).length) ≤
            58 ^ (127 - (ds.takeWhile (· = 0)).length) := by
          calc (256 : ℕ) ^ (64 - (ds.takeWhile (· = 0)).length)
              = (2 ^ 8) ^ (64 - (ds.takeWhile (· = 0)).length) := by norm_num
            _ = 2 ^ (8 * (64 - (ds.takeWhile (· = 0)).length)) :=
                (pow_mul 2 8 _).symm
            _ ≤ 2 ^ (5 * (127 - (ds.takeWhile (· = 0)).length)) :=
                Nat.pow_le_pow_right (by norm_num) (by omega)
            _ = (2 ^ 5) ^ (127 - (ds.takeWhile (· = 0)).length) := pow_mul 2 5 _
            _ ≤ 58 ^ (127 - (ds.takeWhile (· = 0)).length) :=
                Nat.pow_le_pow_left (by norm_num) _
        have hpow : (256 : ℕ) ^ (64 - (ds.takeWhile (· = 0)).length) ≤
            digitsValBE 58 ds := le_trans hchain hvge
        have hdb : 64 - (ds.takeWhile (· = 0)).length <
            (Nat.digits 256 (digitsValBE 58 ds)).length := by
          by_contra hc
          push_neg at hc
          have hv := Nat.lt_base_pow_length_digits
            (b := 256) (m := digitsValBE 58 ds) (by norm_num)
          have : digitsValBE 58 ds <
              256 ^ (64 - (ds.takeWhile (· = 0)).length) :=
            lt_of_lt_of_le hv (Nat.pow_le_pow_right (by norm_num) hc)
          exact absurd hpow (not_le.mpr this)
        omega

/-! ## C4 — support lemmas: base64 -/

lemma b64Index_of_b64Char : ∀ d : ℕ, d < 64 → b64Index (b64Char d) = some d := by
  decide

lemma b64Char_mem (d : ℕ) : b64Char d ∈ B64ALPHABET := by
  rcases getD_mem_or B64ALPHABET d 'A' with h | h
  · exact h
  · rw [b64Char, h]; decide

lemma b64Char_ne_eq (d : ℕ) : b64Char d ≠ '=' := by
  have h := b64Char_mem d
  intro he
  rw [he] at h
  revert h
  decide

lemma takeWhile_ne_eq_cons (c : Char) (l : List Char) (hc : c ≠ '=') :
    (c :: l).takeWhile (· ≠ '=') = c :: l.takeWhile (· ≠ '=') := by
  simp [List.takeWhile_cons, hc]

-- Node's base64 decode is a left inverse of padded base64 encoding.
lemma b64_decode_encode (bytes : List ℕ) (h : ∀ x ∈ bytes, x < 256) :
    b64DecodeChars (b64EncodeBytes bytes) = bytes := by
  revert h
  induction bytes using b64EncodeBytes.induct with
  | case1 x y z rest ih =>
    intro h
    have hx : x < 256 := h x (by simp)
    have hy : y < 256 := h y (by simp)
    have hz : z < 256 := h z (by simp)
    simp only [b64EncodeBytes]
    unfold b64DecodeChars
    rw [takeWhile_ne_eq_cons _ _ (b64Char_ne_eq _),
      takeWhile_ne_eq_cons _ _ (b64Char_ne_eq _),
      takeWhile_ne_eq_cons _ _ (b64Char_ne_eq _),
      takeWhile_ne_eq_cons _ _ (b64Char_ne_eq _),
      List.filterMap_cons_some (b64Index_of_b64Char _ (by omega)),
      List.filterMap_cons_some (b64Index_of_b64Char _ (by omega)),
      List.filterMap_cons_some (b64Index_of_b64Char _ (by omega)),
      List.filterMap_cons_some (b64Index_of_b64Char _ (by omega))]
    simp only [b64DecodeDigits, List.cons.injEq]
    refine ⟨by omega, by omega, by omega, ?_⟩
    have := ih (fun u hu => h u (by simp [hu]))
    unfold b64DecodeChars at this
    exact this
  | case2 x y =>
    intro h
    have hx : x < 256 := h x (by simp)
    have hy : y < 256 := h y (by simp)
    simp only [b64EncodeBytes]
    unfold b64DecodeChars
    rw [takeWhile_ne_eq_cons _ _ (b64Char_ne_eq _),
      takeWhile_ne_eq_cons _ _ (b64Char_ne_eq _),
      takeWhile_ne_eq_cons _ _ (b64Char_ne_eq _)]
    simp only [List.takeWhile_cons]
    norm_num
    rw [List.filterMap_cons_some (b64Index_of_b64Char _ (by omega)),
      List.filterMap_cons_some (b64Index_of_b64Char _ (by omega)),
      List.filterMap_cons_some (b64Index_of_b64Char _ (by omega))]
    simp only [List.filterMap_nil, b64DecodeDigits, List.cons.injEq]
    exact ⟨by omega, by omega, trivial⟩
  | case3 x =>
    intro h
    have hx : x < 256 := h x (by simp)
    simp only [b64EncodeBytes]
    unfold b64DecodeChars
    rw [takeWhile_ne_eq_cons _ _ (b64Char_ne_eq _),
      takeWhile_ne_eq_cons _ _ (b64Char_ne_eq _)]
    simp only [List.takeWhile_cons]
    norm_num
    rw [List.filterMap_cons_some (b64Index_of_b64Char _ (by omega)),
      List.filterMap_cons_some (b64Index_of_b64Char _ (by omega))]
    simp only [List.filterMap_nil, b64DecodeDigits, List.cons.injEq]
    exact ⟨by omega, trivial⟩
  | case4 =>
    intro _
    rfl

-- Padded base64 of a byte sequence of length ≡ 1 (mod 3) contains '='.
lemma eq_mem_b64EncodeBytes : ∀ bytes : List ℕ, bytes.length % 3 = 1 →
    '=' ∈ b64EncodeBytes bytes := by
  intro bytes
  induction bytes using b64EncodeBytes.induct with
  | case1 x y z rest ih =>
    intro hl
    have hr : rest.length % 3 = 1 := by
      simp only [List.length_cons] at hl
      omega
    simp [b64EncodeBytes, ih hr]
  | case2 x y => intro hl; simp at hl
  | case3 x => intro _; simp [b64EncodeBytes]
  | case4 => intro hl; simp at hl

lemma b64DecodeDigits_length_of_mod4 : ∀ (n : ℕ) (ds : List ℕ),
    ds.length = 4 * n → (b64DecodeDigits ds).length = 3 * n := by
  intro n
  induction n with
  | zero =>
    intro ds h
    have hnil : ds = [] := List.eq_nil_of_length_eq_zero (by omega)
    subst hnil
    rfl
  | succ n ih =>
    intro ds h
    rcases ds with _ | ⟨a, _ | ⟨b, _ | ⟨c, _ | ⟨d, rest⟩⟩⟩⟩ <;>
      simp only [List.length_cons, List.length_nil] at h <;> try omega
    have hrest : rest.length = 4 * n := by omega
    simp only [b64DecodeDigits, List.length_cons, ih rest hrest]
    omega

lemma takeWhile_eq_self_of {α : Type} (p : α → Bool) (l : List α)
    (h : ∀ c ∈ l, p c = true) : l.takeWhile p = l := by
  induction l with
  | nil => rfl
  | cons c t ih =>
    rw [List.takeWhile_cons, if_pos (h c (List.mem_cons_self c t)),
      ih (fun x hx => h x (List.mem_cons_of_mem _ hx))]

/-! ## C4 — support lemmas: hex -/

lemma hexChar_props : ∀ n : ℕ, n < 16 →
    isHexAscii (hexChar n) ∧ hexVal (hexChar n) = n ∧ hexChar n ≠ '=' ∧
    (b64Index (hexChar n)).isSome = true ∧ (hexChar n).isWhitespace = false := by
  decide

lemma hexDecode_hexEncode (bytes : List ℕ) (h : ∀ x ∈ bytes, x < 256) :
    hexDecodeChars (hexEncodeBytes bytes) = bytes := by
  induction bytes with
  | nil => rfl
  | cons x rest ih =>
    have hx : x < 256 := h x (List.mem_cons_self x rest)
    simp only [hexEncodeBytes, hexDecodeChars]
    rw [(hexChar_props (x / 16) (by omega)).2.1,
      (hexChar_props (x % 16) (by omega)).2.1,
      ih (fun u hu => h u (List.mem_cons_of_mem _ hu))]
    congr 1
    omega

lemma hexEncodeBytes_length (bytes : List ℕ) :
    (hexEncodeBytes bytes).length = 2 * bytes.length := by
  induction bytes with
  | nil => rfl
  | cons x rest ih =>
    simp only [hexEncodeBytes, List.length_cons, ih]
    omega

lemma hexEncodeBytes_chars (bytes : List ℕ) (h : ∀ x ∈ bytes, x < 256) :
    ∀ c ∈ hexEncodeBytes bytes, isHexAscii c ∧ c ≠ '=' ∧
      (b64Index c).isSome = true ∧ c.isWhitespace = false := by
  induction bytes with
  | nil => intro c hc; cases hc
  | cons x rest ih =>
    intro c hc
    have hx : x < 256 := h x (List.mem_cons_self x rest)
    simp only [hexEncodeBytes, List.mem_cons] at hc
    rcases hc with hc | hc | hc
    · subst hc
      have := hexChar_props (x / 16) (by omega)
      exact ⟨this.1, this.2.2.1, this.2.2.2.1, this.2.2.2.2⟩
    · subst hc
      have := hexChar_props (x % 16) (by omega)
      exact ⟨this.1, this.2.2.1, this.2.2.2.1, this.2.2.2.2⟩
    · exact ih (fun u hu => h u (List.mem_cons_of_mem _ hu)) c hc

/-! ## C4 — support lemmas: comma-separated decimal -/

lemma decChar_props : ∀ d : ℕ, d < 10 →
    (Char.ofNat (48 + d)).isDigit = true ∧ Char.ofNat (48 + d) ≠ ',' ∧
    (Char.ofNat (48 + d)).isWhitespace = false ∧
    (Char.ofNat (48 + d)).toNat - 48 = d := by
  decide

lemma natDecChars_props (x : ℕ) :
    ∀ c ∈ natDecChars x, c.isDigit = true ∧ c ≠ ',' ∧ c.isWhitespace = false := by
  intro c hc
  unfold natDecChars at hc
  by_cases hx : x = 0
  · rw [if_pos hx] at hc
    simp only [List.mem_singleton] at hc
    subst hc
    decide
  · rw [if_neg hx] at hc
    rcases List.mem_map.mp hc with ⟨d, hd, hcd⟩
    have hd10 : d < 10 := mem_natDigitsBE_lt (by norm_num) x d hd
    subst hcd
    have := decChar_props d hd10
    exact ⟨this.1, this.2.1, this.2.2.1⟩

lemma natDecChars_ne_nil (x : ℕ) : natDecChars x ≠ [] := by
  unfold natDecChars
  by_cases hx : x = 0
  · rw [if_pos hx]; simp
  · rw [if_neg hx]
    simp only [ne_eq, List.map_eq_nil_iff]
    rw [natDigitsBE_eq 10 (by norm_num)]
    simp [Nat.digits_ne_nil_iff_ne_zero.mpr hx]

lemma parseIntJs_natDecChars (x : ℕ) : parseIntJs (natDecChars x) = some x := by
  by_cases hx : x = 0
  · subst hx
    decide
  · unfold parseIntJs
    rw [takeWhile_eq_self_of _ _ (fun c hc => (natDecChars_props x c hc).1)]
    rw [if_neg (natDecChars_ne_nil x)]
    unfold natDecChars
    rw [if_neg hx, List.map_map]
    congr 1
    have hmap : (natDigitsBE 10 x).map
        ((fun c => c.toNat - 48) ∘ fun d => Char.ofNat (48 + d)) =
        (natDigitsBE 10 x).map id := by
      apply List.map_congr_left
      intro d hd
      have hd10 : d < 10 := mem_natDigitsBE_lt (by norm_num) x d hd
      simpa using (decChar_props d hd10).2.2.2
    rw [hmap, List.map_id, digitsValBE_natDigitsBE 10 (by norm_num)]

lemma jsTrim_natDecChars (x : ℕ) : jsTrim (natDecChars x) = natDecChars x :=
  jsTrim_eq_self _ (fun c hc => (natDecChars_props x c hc).2.2)

lemma splitComma_no_comma (l : List Char) (h : ',' ∉ l) : splitComma l = [l] := by
  induction l with
  | nil => rfl
  | cons c t ih =>
    have hc : c ≠ ',' := fun he => h (he ▸ List.mem_cons_self c t)
    have ht : ',' ∉ t := fun he => h (List.mem_cons_of_mem _ he)
    simp only [splitComma, ih ht, if_neg hc]

lemma splitComma_cons (c : Char) (l : List Char) :
    splitComma (c :: l) =
      match splitComma l with
      | [] => [[]]
      | g :: gs => if c = ',' then [] :: g :: gs else (c :: g) :: gs := rfl

lemma splitComma_ne_nil : ∀ l : List Char, splitComma l ≠ [] := by
  intro l
  induction l with
  | nil => simp [splitComma]
  | cons c t ih =>
    rw [splitComma_cons]
    cases h : splitComma t with
    | nil => exact absurd h ih
    | cons g gs => split_ifs <;> simp

lemma splitComma_append_comma (chunk rest : List Char) (hc : ',' ∉ chunk) :
    splitComma (chunk ++ ',' :: rest) = chunk :: splitComma rest := by
  induction chunk with
  | nil =>
    rw [List.nil_append, splitComma_cons]
    cases hsc : splitComma rest with
    | nil => exact absurd hsc (splitComma_ne_nil rest)
    | cons g gs => simp
  | cons c t ih =>
    have hcc : c ≠ ',' := fun he => hc (he ▸ List.mem_cons_self c t)
    have htc : ',' ∉ t := fun he => hc (List.mem_cons_of_mem _ he)
    rw [List.cons_append, splitComma_cons, ih htc]
    simp [hcc]

lemma splitComma_arrayEncode : ∀ bytes : List ℕ, bytes ≠ [] →
    splitComma (arrayEncodeBytes bytes) = bytes.map natDecChars := by
  intro bytes
  induction bytes with
  | nil => intro h; exact absurd rfl h
  | cons x rest ih =>
    intro _
    cases rest with
    | nil =>
      simp only [arrayEncodeBytes, List.map_cons, List.map_nil]
      exact splitComma_no_comma _
        (fun hmem => ((natDecChars_props x ',' hmem).2.1) rfl)
    | cons y rest' =>
      simp only [arrayEncodeBytes, List.map_cons]
      rw [splitComma_append_comma _ _
        (fun hmem => ((natDecChars_props x ',' hmem).2.1) rfl)]
      have := ih (by simp)
      simp only [List.map_cons] at this
      rw [this]

lemma comma_mem_arrayEncode (x y : ℕ) (rest : List ℕ) :
    ',' ∈ arrayEncodeBytes (x :: y :: rest) := by
  simp [arrayEncodeBytes]

/-! ## C4 — character classes of the four renderings -/

lemma b58_alpha_ne_eq : ∀ c ∈ B58ALPHABET, c ≠ '=' := by decide

lemma base58Encode_not_ws (bytes : List ℕ) :
    ∀ c ∈ base58EncodeBytes bytes, c.isWhitespace = false := by
  intro c hc
  rw [base58EncodeBytes] at hc
  rcases List.mem_append.mp hc with hc | hc
  · rw [List.eq_of_mem_replicate hc]
    decide
  · rcases List.mem_map.mp hc with ⟨d, _, hcd⟩
    exact hcd ▸ b58_alpha_not_ws _ (b58Char_mem d)

lemma b64_alpha_not_ws : ∀ c ∈ B64ALPHABET, c.isWhitespace = false := by
  decide

lemma b64Encode_not_ws : ∀ bytes : List ℕ,
    ∀ c ∈ b64EncodeBytes bytes, c.isWhitespace = false := by
  intro bytes
  induction bytes using b64EncodeBytes.induct with
  | case1 x y z rest ih =>
    intro c hc
    simp only [b64EncodeBytes, List.mem_cons] at hc
    rcases hc with hc | hc | hc | hc | hc
    · exact hc ▸ b64_alpha_not_ws _ (b64Char_mem _)
    · exact hc ▸ b64_alpha_not_ws _ (b64Char_mem _)
    · exact hc ▸ b64_alpha_not_ws _ (b64Char_mem _)
    · exact hc ▸ b64_alpha_not_ws _ (b64Char_mem _)
    · exact ih c hc
  | case2 x y =>
    intro c hc
    simp only [b64EncodeBytes, List.mem_cons] at hc
    rcases hc with hc | hc | hc | hc | hc
    · exact hc ▸ b64_alpha_not_ws _ (b64Char_mem _)
    · exact hc ▸ b64_alpha_not_ws _ (b64Char_mem _)
    · exact hc ▸ b64_alpha_not_ws _ (b64Char_mem _)
    · subst hc; decide
    · cases hc
  | case3 x =>
    intro c hc
    simp only [b64EncodeBytes, List.mem_cons] at hc
    rcases hc with hc | hc | hc | hc | hc
    · exact hc ▸ b64_alpha_not_ws _ (b64Char_mem _)
    · exact hc ▸ b64_alpha_not_ws _ (b64Char_mem _)
    · subst hc; decide
    · subst hc; decide
    · cases hc
  | case4 =>
    intro c hc
    cases hc

lemma arrayEncode_not_ws : ∀ bytes : List ℕ,
    ∀ c ∈ arrayEncodeBytes bytes, c.isWhitespace = false := by
  intro bytes
  induction bytes using arrayEncodeBytes.induct with
  | case1 =>
    intro c hc
    cases hc
  | case2 x =>
    intro c hc
    exact (natDecChars_props x c hc).2.2
  | case3 x y rest ih =>
    intro c hc
    simp only [arrayEncodeBytes, List.mem_append, List.mem_cons] at hc
    rcases hc with hc | hc | hc
    · exact (natDecChars_props x c hc).2.2
    · subst hc; decide
    · exact ih c hc

/-! ## C4 — the four resolution attempts on each rendering -/

lemma keypairResult_pos (valid : List ℕ → Bool) (fmt : String) (b : List ℕ)
    (hlen : b.length = 64) (hval : valid b = true) :
    keypairResult valid fmt b =
      some ⟨true, fmt, some (base58EncodeBytes (b.drop 32)),
        some (base58EncodeBytes b), none⟩ := by
  rw [keypairResult, if_pos ⟨hlen, hval⟩]

lemma keypairResult_neg (valid : List ℕ → Bool) (fmt : String) (b : List ℕ)
    (h : ¬(b.length = 64 ∧ valid b = true)) :
    keypairResult valid fmt b = none := by
  rw [keypairResult, if_neg h]

lemma attemptBase58_base58Encode (valid : List ℕ → Bool) (b : List ℕ)
    (hlen : b.length = 64) (hlt : ∀ x ∈ b, x < 256) (hval : valid b = true) :
    attemptBase58 valid (base58EncodeBytes b) =
      some ⟨true, "base58", some (base58EncodeBytes (b.drop 32)),
        some (base58EncodeBytes b), none⟩ := by
  rw [attemptBase58, base58_decode_encode b hlt, Option.some_bind,
    keypairResult_pos _ _ _ hlen hval]

lemma attemptBase58_b64Encode (valid : List ℕ → Bool) (b : List ℕ)
    (hlen : b.length = 64) :
    attemptBase58 valid (b64EncodeBytes b) = none := by
  have hmem : '=' ∈ b64EncodeBytes b :=
    eq_mem_b64EncodeBytes b (by rw [hlen])
  rw [attemptBase58, base58DecodeChars,
    mapOption_eq_none _ _ _ hmem (by decide)]
  rfl

lemma attemptBase64_b64Encode (valid : List ℕ → Bool) (b : List ℕ)
    (hlen : b.length = 64) (hlt : ∀ x ∈ b, x < 256) (hval : valid b = true) :
    attemptBase64 valid (b64EncodeBytes b) =
      some ⟨true, "base64", some (base58EncodeBytes (b.drop 32)),
        some (base58EncodeBytes b), none⟩ := by
  rw [attemptBase64, b64_decode_encode b hlt, keypairResult_pos _ _ _ hlen hval]

lemma attemptBase58_hexEncode (valid : List ℕ → Bool) (b : List ℕ)
    (hlen : b.length = 64) :
    attemptBase58 valid (hexEncodeBytes b) = none := by
  have hcl : (hexEncodeBytes b).length = 128 := by
    rw [hexEncodeBytes_length, hlen]
  rw [attemptBase58]
  cases hdec : base58DecodeChars (hexEncodeBytes b) with
  | none => rfl
  | some bs =>
    rw [Option.some_bind]
    have h65 := base58_decode_length_of_128 _ hcl bs hdec
    exact keypairResult_neg _ _ _ (fun h => by omega)

lemma attemptBase64_hexEncode (valid : List ℕ → Bool) (b : List ℕ)
    (hlen : b.length = 64) (hlt : ∀ x ∈ b, x < 256) :
    attemptBase64 valid (hexEncodeBytes b) = none := by
  have hchars := hexEncodeBytes_chars b hlt
  have hdeclen : (b64DecodeChars (hexEncodeBytes b)).length = 96 := by
    rw [b64DecodeChars]
    rw [takeWhile_eq_self_of _ _ (fun c hc => by
      simpa using (hchars c hc).2.1)]
    have hfl : ((hexEncodeBytes b).filterMap b64Index).length = 128 := by
      rw [filterMap_length_of_forall_isSome _ _
        (fun c hc => (hchars c hc).2.2.1), hexEncodeBytes_length, hlen]
    rw [b64DecodeDigits_length_of_mod4 32 _ (by rw [hfl])]
  rw [attemptBase64]
  exact keypairResult_neg _ _ _ (fun h => by omega)

lemma attemptHex_hexEncode (valid : List ℕ → Bool) (b : List ℕ)
    (hlen : b.length = 64) (hlt : ∀ x ∈ b, x < 256) (hval : valid b = true) :
    attemptHex valid (hexEncodeBytes b) =
      some ⟨true, "hex", some (base58EncodeBytes (b.drop 32)),
        some (base58EncodeBytes b), none⟩ := by
  have hne : hexEncodeBytes b ≠ [] := by
    intro h
    have := hexEncodeBytes_length b
    rw [h, hlen] at this
    simp at this
  rw [attemptHex, if_pos ⟨hne, fun c hc => (hexEncodeBytes_chars b hlt c hc).1⟩,
    hexDecode_hexEncode b hlt, keypairResult_pos _ _ _ hlen hval]

lemma attemptBase58_arrayEncode (valid : List ℕ → Bool) (x y : ℕ)
    (rest : List ℕ) :
    attemptBase58 valid (arrayEncodeBytes (x :: y :: rest)) = none := by
  rw [attemptBase58, base58DecodeChars,
    mapOption_eq_none _ _ _ (comma_mem_arrayEncode x y rest) (by decide)]
  rfl

lemma attemptHex_arrayEncode (valid : List ℕ → Bool) (x y : ℕ)
    (rest : List ℕ) :
    attemptHex valid (arrayEncodeBytes (x :: y :: rest)) = none := by
  rw [attemptHex, if_neg]
  rintro ⟨-, hall⟩
  have := hall ',' (comma_mem_arrayEncode x y rest)
  revert this
  decide

lemma attemptArray_arrayEncode (valid : List ℕ → Bool) (b : List ℕ)
    (hlen : b.length = 64) (hlt : ∀ x ∈ b, x < 256) (hval : valid b = true) :
    attemptArray valid (arrayEncodeBytes b) =
      some ⟨true, "array", some (base58EncodeBytes (b.drop 32)),
        some (base58EncodeBytes b), none⟩ := by
  have hne : b ≠ [] := by
    intro h
    rw [h] at hlen
    cases hlen
  rw [attemptArray]
  simp only [splitComma_arrayEncode b hne, List.map_map]
  have hnums : b.map ((fun p => parseIntJs (jsTrim p)) ∘ natDecChars) =
      b.map some := by
    apply List.map_congr_left
    intro x _
    simp only [Function.comp_apply, jsTrim_natDecChars, parseIntJs_natDecChars]
  rw [hnums]
  rw [if_pos ⟨by rw [List.length_map, hlen], by
    intro n hn
    rcases List.mem_map.mp hn with ⟨x, _, hx⟩
    rw [← hx]
    simp⟩]
  have hback : b.map ((fun o => o.getD 0 % 256) ∘
      (fun p => parseIntJs (jsTrim p)) ∘ natDecChars) = b := by
    have : b.map ((fun (o : Option ℕ) => o.getD 0 % 256) ∘
        (fun p => parseIntJs (jsTrim p)) ∘ natDecChars) = b.map id := by
      apply List.map_congr_left
      intro x hx
      simp [Function.comp_apply, jsTrim_natDecChars, parseIntJs_natDecChars,
        Nat.mod_eq_of_lt (hlt x hx)]
    rw [this, List.map_id]
  rw [hback, keypairResult_pos _ _ _ hlen hval]

lemma orElse_some {α : Type} (a : α) (f : Unit → Option α) :
    (some a).orElse f = some a := rfl

lemma orElse_none {α : Type} (f : Unit → Option α) :
    (none : Option α).orElse f = f () := rfl

/-! ## C4 — the claim -/

/-- Claim C4: for every 64-byte secret accepted as a valid keypair, resolving
its base58, base64, 128-character hex, or comma-separated-decimal rendering
through identifyKeyFormat succeeds, yields the same public key (the base58 of
bytes 32..63) and the same canonical base58 re-encoding of the whole secret,
and is claimed by the first matching strategy in the fixed order base58,
base64, hex, array.  The ed25519 consistency check of Keypair.fromSecretKey
is the abstract predicate `valid`; the last hypothesis states that the
lenient base64 reinterpretation of the comma-separated rendering is not
itself accepted as a valid 64-byte keypair (for a real ed25519 check this is
a cryptographically negligible coincidence the model cannot decide). -/
theorem identifyKeyFormat_cross_format (valid : List ℕ → Bool) (b : List ℕ)
    (hlen : b.length = 64) (hlt : ∀ x ∈ b, x < 256) (hval : valid b = true)
    (hcross : ¬((b64DecodeChars (arrayEncodeBytes b)).length = 64 ∧
      valid (b64DecodeChars (arrayEncodeBytes b)) = true)) :
    identifyKeyFormat valid (base58EncodeBytes b) =
      ⟨true, "base58", some (base58EncodeBytes (b.drop 32)),
        some (base58EncodeBytes b), none⟩ ∧
    identifyKeyFormat valid (b64EncodeBytes b) =
      ⟨true, "base64", some (base58EncodeBytes (b.drop 32)),
        some (base58EncodeBytes b), none⟩ ∧
    identifyKeyFormat valid (hexEncodeBytes b) =
      ⟨true, "hex", some (base58EncodeBytes (b.drop 32)),
        some (base58EncodeBytes b), none⟩ ∧
    identifyKeyFormat valid (arrayEncodeBytes b) =
      ⟨true, "array", some (base58EncodeBytes (b.drop 32)),
        some (base58EncodeBytes b), none⟩ := by
  refine ⟨?_, ?_, ?_, ?_⟩
  · simp only [identifyKeyFormat, jsTrim_eq_self _ (base58Encode_not_ws b),
      attemptBase58_base58Encode valid b hlen hlt hval, orElse_some,
      Option.getD_some]
  · simp only [identifyKeyFormat, jsTrim_eq_self _ (b64Encode_not_ws b),
      attemptBase58_b64Encode valid b hlen, orElse_none,
      attemptBase64_b64Encode valid b hlen hlt hval, orElse_some,
      Option.getD_some]
  · simp only [identifyKeyFormat,
      jsTrim_eq_self _ (fun c hc => (hexEncodeBytes_chars b hlt c hc).2.2.2),
      attemptBase58_hexEncode valid b hlen, orElse_none,
      attemptBase64_hexEncode valid b hlen hlt, orElse_none,
      attemptHex_hexEncode valid b hlen hlt hval, orElse_some,
      Option.getD_some]
  · have hb64none : attemptBase64 valid (arrayEncodeBytes b) = none := by
      rw [attemptBase64]
      exact keypairResult_neg _ _ _ hcross
    rcases b with _ | ⟨x, _ | ⟨y, rest⟩⟩
    · cases hlen
    · simp only [List.length_cons, List.length_nil] at hlen
      omega
    · simp only [identifyKeyFormat,
        jsTrim_eq_self _ (arrayEncode_not_ws (x :: y :: rest)),
        attemptBase58_arrayEncode valid x y rest, orElse_none,
        hb64none, attemptHex_arrayEncode valid x y rest,
        attemptArray_arrayEncode valid (x :: y :: rest) hlen hlt hval,
        Option.getD_some]

theorem identifyKeyFormat_cross_format_witness :
    identifyKeyFormat validOnSecret (base58EncodeBytes secretBytes) =
      ⟨true, "base58", some (base58EncodeBytes (secretBytes.drop 32)),
        some (base58EncodeBytes secretBytes), none⟩ ∧
    identifyKeyFormat validOnSecret (b64EncodeBytes secretBytes) =
      ⟨true, "base64", some (base58EncodeBytes (secretBytes.drop 32)),
        some (base58EncodeBytes secretBytes), none⟩ ∧
    identifyKeyFormat validOnSecret (hexEncodeBytes secretBytes) =
      ⟨true, "hex", some (base58EncodeBytes (secretBytes.drop 32)),
        some (base58EncodeBytes secretBytes), none⟩ ∧
    identifyKeyFormat validOnSecret (arrayEncodeBytes secretBytes) =
      ⟨true, "array", some (base58EncodeBytes (secretBytes.drop 32)),
        some (base58EncodeBytes secretBytes), none⟩ :=
  identifyKeyFormat_cross_format validOnSecret secretBytes (by decide)
    (by decide) (by decide) (by decide)

end LiquidityBot
